import Mathlib

/-!
Verification of the gofuncs function-adaptation library (src/unnamed/part_001).

The library operates on Go `interface{}` values and uses the `reflect`
package to inspect dynamic types.  We shallowly embed the fragment of Go's
dynamic type system that the library exercises:

* `GoType` models `reflect.Type` (with `reflect`'s numeric kind codes);
* `GoVal` models an `interface{}` value: either the untyped nil interface or
  a value tagged with its dynamic (concrete) type.  Function values carry a
  numeric identifier; their behaviour is supplied separately by an
  environment `FEnv` so that the adapters' call-time semantics can invoke
  them.
* Panics are modelled by `Except Fault`.
-/

inductive GoType where
  | bool
  | int
  | int8
  | string
  | array (n : Nat) (elem : GoType)
  | chan (elem : GoType)
  | func (ins : List GoType) (outs : List GoType)
  | iface (name : String)
  | map (key : GoType) (value : GoType)
  | ptr (elem : GoType)
  | slice (elem : GoType)

mutual
def GoType.beq : GoType → GoType → Bool
  | .bool, .bool => true
  | .int, .int => true
  | .int8, .int8 => true
  | .string, .string => true
  | .array n e, .array m f => n == m && GoType.beq e f
  | .chan e, .chan f => GoType.beq e f
  | .func ps rs, .func qs ss => GoType.beqList ps qs && GoType.beqList rs ss
  | .iface a, .iface b => a == b
  | .map k v, .map k2 v2 => GoType.beq k k2 && GoType.beq v v2
  | .ptr e, .ptr f => GoType.beq e f
  | .slice e, .slice f => GoType.beq e f
  | _, _ => false
def GoType.beqList : List GoType → List GoType → Bool
  | [], [] => true
  | a :: as1, b :: bs => GoType.beq a b && GoType.beqList as1 bs
  | _, _ => false
end

mutual
theorem GoType.beq_iff : ∀ a b : GoType, GoType.beq a b = true ↔ a = b
  | .bool, b => by cases b <;> simp [GoType.beq]
  | .int, b => by cases b <;> simp [GoType.beq]
  | .int8, b => by cases b <;> simp [GoType.beq]
  | .string, b => by cases b <;> simp [GoType.beq]
  | .array n e, b => by cases b <;> simp [GoType.beq, GoType.beq_iff e]
  | .chan e, b => by cases b <;> simp [GoType.beq, GoType.beq_iff e]
  | .func ps rs, b => by
      cases b <;> simp [GoType.beq, GoType.beqList_iff ps, GoType.beqList_iff rs]
  | .iface a, b => by cases b <;> simp [GoType.beq]
  | .map k v, b => by
      cases b <;> simp [GoType.beq, GoType.beq_iff k, GoType.beq_iff v]
  | .ptr e, b => by cases b <;> simp [GoType.beq, GoType.beq_iff e]
  | .slice e, b => by cases b <;> simp [GoType.beq, GoType.beq_iff e]
theorem GoType.beqList_iff : ∀ a b : List GoType, GoType.beqList a b = true ↔ a = b
  | [], b => by cases b <;> simp [GoType.beqList]
  | a :: as1, b => by
      cases b <;> simp [GoType.beqList, GoType.beq_iff a, GoType.beqList_iff as1]
end

instance : DecidableEq GoType := fun a b =>
  decidable_of_iff (GoType.beq a b = true) (GoType.beq_iff a b)

/-- The numeric `reflect.Kind` code of a type.  The codes follow the
`reflect` package: Bool=1, Int=2, Int8=3, Array=17, Chan=18, Func=19,
Interface=20, Map=21, Ptr=22, Slice=23, String=24. -/
def GoType.kind : GoType → Nat
  | .bool => 1
  | .int => 2
  | .int8 => 3
  | .array _ _ => 17
  | .chan _ => 18
  | .func _ _ => 19
  | .iface _ => 20
  | .map _ _ => 21
  | .ptr _ => 22
  | .slice _ => 23
  | .string => 24

/-- `true` for the integer kinds among our types (used by Go's conversion
rules: integer types convert to `string` via rune conversion). -/
def GoType.isNumeric : GoType → Bool
  | .int => true
  | .int8 => true
  | _ => false

/-- Models `reflect.Type.Comparable()`: slice, map and func types do not
support the Go `==` operator; an array is comparable iff its element type
is; everything else here (including interface types) is comparable. -/
def GoType.comparableT : GoType → Bool
  | .slice _ => false
  | .map _ _ => false
  | .func _ _ => false
  | .array _ e => GoType.comparableT e
  | _ => true

/-- Models `reflect.Type.ConvertibleTo` restricted to the types of this
embedding: a type converts to itself; integer types convert among one
another and to `string` (rune conversion); and every type converts to the
empty interface type. -/
def GoType.convertibleTo (s t : GoType) : Bool :=
  s == t || (s.isNumeric && t.isNumeric) || (s.isNumeric && t == .string)
    || t == .iface ""

/-- A Go `interface{}` value: the untyped nil interface, or a value tagged
with its dynamic type.  Function values are identified by `fid`; their
behaviour lives in a separate environment (`FEnv`) keyed by `fid`.  The
`a` fields of reference values are abstract nonzero machine addresses of
live objects (`fmt.Sprintf "%p"` renders them; distinct live objects have
distinct addresses). -/
inductive GoVal where
  | untypedNil
  | boolV (b : Bool)
  | intV (t : GoType) (n : Int)
  | stringV (s : String)
  | nilRef (t : GoType)
  | refV (t : GoType) (a : Nat)
  | sliceV (elem : GoType) (a : Nat) (elems : List GoVal)
  | mapV (kt vt : GoType) (a : Nat) (entries : List (GoVal × GoVal))
  | funcV (params results : List GoType) (fid : Nat)

mutual
def GoVal.beq : GoVal → GoVal → Bool
  | .untypedNil, .untypedNil => true
  | .boolV a, .boolV b => a == b
  | .intV t a, .intV u b => t == u && a == b
  | .stringV a, .stringV b => a == b
  | .nilRef t, .nilRef u => t == u
  | .refV t a, .refV u b => t == u && a == b
  | .sliceV t a es, .sliceV u b fs => t == u && a == b && GoVal.beqL es fs
  | .mapV k v a es, .mapV k2 v2 b fs =>
      k == k2 && v == v2 && a == b && GoVal.beqP es fs
  | .funcV ps rs a, .funcV qs ss b => ps == qs && rs == ss && a == b
  | _, _ => false
def GoVal.beqL : List GoVal → List GoVal → Bool
  | [], [] => true
  | a :: as1, b :: bs => GoVal.beq a b && GoVal.beqL as1 bs
  | _, _ => false
def GoVal.beqP : List (GoVal × GoVal) → List (GoVal × GoVal) → Bool
  | [], [] => true
  | (k, v) :: as1, (k2, v2) :: bs =>
      GoVal.beq k k2 && GoVal.beq v v2 && GoVal.beqP as1 bs
  | _, _ => false
end

mutual
theorem GoVal.vbeq_iff : ∀ a b : GoVal, GoVal.beq a b = true ↔ a = b
  | .untypedNil, b => by cases b <;> simp [GoVal.beq]
  | .boolV a, b => by cases b <;> simp [GoVal.beq]
  | .intV t a, b => by cases b <;> simp [GoVal.beq]
  | .stringV a, b => by cases b <;> simp [GoVal.beq]
  | .nilRef t, b => by cases b <;> simp [GoVal.beq]
  | .refV t a, b => by cases b <;> simp [GoVal.beq]
  | .sliceV t a es, b => by cases b <;> simp [GoVal.beq, GoVal.beqL_iff es, and_assoc]
  | .mapV k v a es, b => by cases b <;> simp [GoVal.beq, GoVal.beqP_iff es, and_assoc]
  | .funcV ps rs a, b => by cases b <;> simp [GoVal.beq, and_assoc]
theorem GoVal.beqL_iff : ∀ a b : List GoVal, GoVal.beqL a b = true ↔ a = b
  | [], b => by cases b <;> simp [GoVal.beqL]
  | a :: as1, b => by
      cases b <;> simp [GoVal.beqL, GoVal.vbeq_iff a, GoVal.beqL_iff as1]
theorem GoVal.beqP_iff :
    ∀ a b : List (GoVal × GoVal), GoVal.beqP a b = true ↔ a = b
  | [], b => by cases b <;> simp [GoVal.beqP]
  | (k, v) :: as1, b => by
      cases b with
      | nil => simp [GoVal.beqP]
      | cons hd tl =>
          obtain ⟨k2, v2⟩ := hd
          simp [GoVal.beqP, GoVal.vbeq_iff k, GoVal.vbeq_iff v, GoVal.beqP_iff as1]
end

instance : DecidableEq GoVal := fun a b =>
  decidable_of_iff (GoVal.beq a b = true) (GoVal.vbeq_iff a b)

deriving instance DecidableEq for Except

/-- Bodies of the function values: `fid ↦` semantic function from argument
list to result list. -/
def FEnv : Type := Nat → List GoVal → List GoVal

/-- Models `reflect.TypeOf`: `none` for the untyped nil interface, else the
dynamic type. -/
def GoVal.typeOf : GoVal → Option GoType
  | .untypedNil => none
  | .boolV _ => some .bool
  | .intV t _ => some t
  | .stringV _ => some .string
  | .nilRef t => some t
  | .refV t _ => some t
  | .sliceV e _ _ => some (.slice e)
  | .mapV k v _ _ => some (.map k v)
  | .funcV ps rs _ => some (.func ps rs)

/-- IsNilable (part_001 lines 268 to 276): true if the value is invalid
(untyped nil) or its kind lies in the range Chan..Slice. -/
def IsNilable (val : GoVal) : Bool :=
  match val.typeOf with
  | none => true
  | some t => 18 ≤ t.kind && t.kind ≤ 23

/-- IsNil (part_001 lines 257 to 264): if nilable, true when the value is
invalid (untyped nil) or its underlying reference is nil. -/
def IsNil (val : GoVal) : Bool :=
  if IsNilable val then
    match val with
    | .untypedNil => true
    | .nilRef _ => true
    | _ => false
  else false

/-- Well-formedness of a value as a Go `interface{}` content: the dynamic
type of a non-nil interface is never itself an interface type, integer
values carry integer types, and nil references carry reference-like types.
Every value constructible in Go satisfies this. -/
def GoVal.WF : GoVal → Bool
  | .untypedNil => true
  | .boolV _ => true
  | .intV t _ => t.isNumeric
  | .stringV _ => true
  | .nilRef t => (18 ≤ t.kind && t.kind ≤ 23) && !(t.kind == 20)
  | .refV t _ => t.kind == 18 || t.kind == 22
  | .sliceV _ _ _ => true
  | .mapV _ _ _ _ => true
  | .funcV _ _ _ => true

/-- Rendering of `fmt.Sprintf "%p" v` used by EqualTo's fallback branch for
types that have no `==` operator: `nilAddr` prints as "0x0", `addr a` as
the nonzero hexadecimal address of a live object, and `scalar` as the
`%!p(type=value)` form fmt emits for non-pointer operands.  Equality of
`PRepr` coincides with equality of the formatted strings. -/
inductive PRepr where
  | nilAddr
  | addr (a : Nat)
  | scalar (t : GoType) (s : String)
deriving DecidableEq

/-- `fmt.Sprintf "%p"` of a dynamic value. -/
def pAddr : GoVal → PRepr
  | .untypedNil => .scalar (.iface "") "<nil>"
  | .boolV b => .scalar .bool (toString b)
  | .intV t n => .scalar t (toString n)
  | .stringV s => .scalar .string s
  | .nilRef _ => .nilAddr
  | .refV _ a => .addr a
  | .sliceV _ a _ => .addr a
  | .mapV _ _ a _ => .addr a
  | .funcV _ _ fid => .addr fid

/-- Faults (Go panics) that the library can raise. `msg` is a plain string
panic; `msgTyped fmt t` is `panic(fmt.Sprintf(fmt, t))` as used by MapTo
and SupplierOf; the others are panics raised inside the reflect package. -/
inductive Fault where
  | msg (s : String)
  | msgTyped (format : String) (t : GoType)
  | convertZero
  | badConvert (src dst : GoType)
  | uncomparable (t : GoType)
  | indexRange
  | nilFuncCall
  | illTyped
deriving DecidableEq

def indexOfErrorMsg : String := "slc must be a slice"
def valueOfKeyErrorMsg : String := "mp must be a map"
def filterErrorMsg : String :=
  "fn must be a non-nil function of one argument of any type that returns bool"
def mapErrorMsg : String :=
  "fn must be a non-nil function of one argument of any type that returns one value of any type"
def mapToErrorMsg : String :=
  "fn must be a non-nil function of one argument of any type that returns one value convertible to type %s"
def supplierErrorMsg : String :=
  "fn must be a non-nil function of no arguments that returns one value of any type"
def supplierOfErrorMsg : String :=
  "fn must be a non-nil function of no arguments that returns one value convertible to type %s"
def consumerErrorMsg : String :=
  "fn must be a non-nil funciton of one argument of any type and no return values"
def nilProbeMsg : String := "val cannot be nil"
def ifaceProbeMsg : String := "val cannot be an interface\x7b\x7d value"

/-- Models `reflect.Zero(t).Interface()`. -/
def zeroVal : GoType → GoVal
  | .bool => .boolV false
  | .int => .intV .int 0
  | .int8 => .intV .int8 0
  | .string => .stringV ""
  | .iface _ => .untypedNil
  | t => .nilRef t

/-- Two's-complement wrap of an integer into `w` bits (Go conversions
between sized integer types truncate). -/
def wrapInt (w : Nat) (n : Int) : Int := (n + 2 ^ (w - 1)) % 2 ^ w - 2 ^ (w - 1)

/-- The value produced by `reflect.Value.Convert(t)` on a valid value, or
`none` when the dynamic type is not convertible to `t`.  Conversion to the
same type or to the empty interface leaves the value unchanged; integer
conversions truncate; an integer converts to `string` as a one-rune
string. -/
def convertVal (v : GoVal) (t : GoType) : Option GoVal :=
  match v.typeOf with
  | none => none
  | some s =>
    if ¬ (s.convertibleTo t) then none
    else if s = t then some v
    else if t = .iface "" then some v
    else match v, t with
      | .intV _ n, .int => some (.intV .int (wrapInt 64 n))
      | .intV _ n, .int8 => some (.intV .int8 (wrapInt 8 n))
      | .intV _ n, .string =>
          some (.stringV (String.mk [Char.ofNat n.toNat]))
      | _, _ => none

/-- Models `reflect.ValueOf(arg).Convert(t)`: panics on the zero `Value`
(untyped nil argument) and on an inconvertible dynamic type. -/
def reflectConvert (arg : GoVal) (t : GoType) : Except Fault GoVal :=
  match arg.typeOf with
  | none => .error .convertZero
  | some s =>
    match convertVal arg t with
    | some v => .ok v
    | none => .error (.badConvert s t)

/-- Go `==` on two `interface{}` values: unequal dynamic types compare
false; identical but non-comparable dynamic types panic; otherwise values
of the common type are compared (references by address). -/
def goEq (a b : GoVal) : Except Fault Bool :=
  match a, b with
  | .untypedNil, .untypedNil => .ok true
  | .untypedNil, _ => .ok false
  | _, .untypedNil => .ok false
  | a, b =>
    match a.typeOf, b.typeOf with
    | some ta, some tb =>
      if ta ≠ tb then .ok false
      else if ¬ ta.comparableT then .error (.uncomparable ta)
      else match a, b with
        | .boolV x, .boolV y => .ok (x == y)
        | .intV _ x, .intV _ y => .ok (x == y)
        | .stringV x, .stringV y => .ok (x == y)
        | .nilRef _, .nilRef _ => .ok true
        | .nilRef _, .refV _ _ => .ok false
        | .refV _ _, .nilRef _ => .ok false
        | .refV _ x, .refV _ y => .ok (x == y)
        | _, _ => .error .illTyped
    | _, _ => .error .illTyped

namespace Gofuncs

/-- Go conversion `int(index)` applied to a `uint` index on a 64-bit
platform: values at or above 2^63 wrap to negative integers. -/
def intOfUint64 (u : Nat) : Int := if u < 2 ^ 63 then (u : Int) else (u : Int) - 2 ^ 64

/-- Models `reflect.Type.Elem()` for the element-carrying types. -/
def GoType.elemT : GoType → GoType
  | .array _ e => e
  | .slice e => e
  | .chan e => e
  | .map _ v => v
  | .ptr e => e
  | t => t

/-- Models `reflect.Value.Len()` for slice values (a nil slice has
length 0). -/
def goLen : GoVal → Nat
  | .sliceV _ _ es => es.length
  | _ => 0

/-- Models `reflect.Value.Index(i).Interface()`: `none` when `i` is out of
range (reflect panics there). -/
def goIndexAt (v : GoVal) (i : Int) : Option GoVal :=
  if i < 0 then none
  else match v with
    | .sliceV _ _ es => es.get? i.toNat
    | _ => none

/-- IndexOf (part_001 lines 25 to 55).  The default value, when present, is
converted to the element type before the bounds check (so an inconvertible
default always faults).  `idx := int(index)` is the Go conversion from
`uint`, which wraps to a negative int for `index ≥ 2^63`. -/
def IndexOf (arrslc : GoVal) (index : Nat) (defalt : Option GoVal) :
    Except Fault GoVal := do
  let t ← match arrslc.typeOf with
    | some t =>
        if t.kind = 17 ∨ t.kind = 23 then Except.ok t
        else Except.error (Fault.msg indexOfErrorMsg)
    | none => Except.error (Fault.msg indexOfErrorMsg)
  let elemTyp := GoType.elemT t
  let rdf ← match defalt with
    | some d => Except.map some (reflectConvert d elemTyp)
    | none => Except.ok (none : Option GoVal)
  let idx : Int := intOfUint64 index
  if (goLen arrslc : Int) > idx then
    match goIndexAt arrslc idx with
    | some v => Except.ok v
    | none => Except.error Fault.indexRange
  else
    match rdf with
    | some v => Except.ok v
    | none => Except.ok (zeroVal elemTyp)

def mapEntriesOf : GoVal → List (GoVal × GoVal)
  | .mapV _ _ _ es => es
  | _ => []

/-- The key-lookup loop of ValueOfKey: Go `==` between each stored key and
the argument key. -/
def findKey : List (GoVal × GoVal) → GoVal → Except Fault (Option GoVal)
  | [], _ => .ok none
  | (k, v) :: rest, key => do
      let b ← goEq k key
      if b then pure (some v) else findKey rest key

/-- ValueOfKey (part_001 lines 63 to 91). -/
def ValueOfKey (mp key : GoVal) (defalt : Option GoVal) : Except Fault GoVal := do
  let vt ← match mp.typeOf with
    | some (.map _ v) => Except.ok v
    | _ => Except.error (Fault.msg valueOfKeyErrorMsg)
  let rdf ← match defalt with
    | some d => Except.map some (reflectConvert d vt)
    | none => Except.ok (none : Option GoVal)
  let hit ← findKey (mapEntriesOf mp) key
  match hit with
  | some v => Except.ok v
  | none =>
    match rdf with
    | some v => Except.ok v
    | none => Except.ok (zeroVal vt)

def anyTyp : GoType := .iface ""

/-- func(interface\x7b\x7d) bool -/
def filterTarget : GoType := .func [anyTyp] [.bool]

/-- func(interface\x7b\x7d) interface\x7b\x7d -/
def mapTarget : GoType := .func [anyTyp] [anyTyp]

/-- func() interface\x7b\x7d -/
def supplierTarget : GoType := .func [] [anyTyp]

/-- func(interface\x7b\x7d) -/
def consumerTarget : GoType := .func [anyTyp] []

/-- The result of a unary adapter: either the input function itself
(identity fast path) or a reflective wrapper that converts each argument
to the captured declared parameter type. -/
inductive AdaptRes where
  | original
  | wrapped (argTyp : GoType)
deriving DecidableEq

/-- Filter (part_001 lines 96 to 124), adaptation time.  The fast path is
the Go type assertion `fn.(func(interface\x7b\x7d) bool)`, which succeeds
exactly when the dynamic type equals the target signature. -/
def Filter (fn : GoVal) : Except Fault AdaptRes :=
  if fn.typeOf = some filterTarget then .ok .original
  else match fn with
    | .funcV [argTyp] [resTyp] _ =>
        if resTyp.kind = 1 then .ok (.wrapped argTyp)
        else .error (.msg filterErrorMsg)
    | .funcV _ _ _ => .error (.msg filterErrorMsg)
    | _ => .error (.msg filterErrorMsg)

def asBool : List GoVal → Except Fault Bool
  | [.boolV b] => .ok b
  | _ => .error .illTyped

def asOne : List GoVal → Except Fault GoVal
  | [v] => .ok v
  | _ => .error .illTyped

/-- Call-time semantics of the function Filter returns.  On the fast path
the original callable runs on the raw argument; the wrapper first performs
`reflect.ValueOf(arg).Convert(argTyp)` (which panics on an untyped nil
argument), then calls the callable and extracts the bool result. -/
def filterCall (env : FEnv) (fn : GoVal) (r : AdaptRes) (arg : GoVal) :
    Except Fault Bool :=
  match r, fn with
  | .original, .funcV _ _ fid => asBool (env fid [arg])
  | .original, _ => .error .nilFuncCall
  | .wrapped argTyp, .funcV _ _ fid => do
      let a ← reflectConvert arg argTyp
      asBool (env fid [a])
  | .wrapped _, _ => .error .illTyped

/-- FilterAll (part_001 lines 131 to 139): each callable is adapted by
Filter, in order. -/
def FilterAll (fns : List GoVal) : Except Fault (List (GoVal × AdaptRes)) :=
  fns.mapM (fun fn => Except.map (fun r => (fn, r)) (Filter fn))

def predCall (env : FEnv) (p : GoVal × AdaptRes) (v : GoVal) : Except Fault Bool :=
  filterCall env p.1 p.2 v

/-- The loop inside the closure And returns: false on the first falsy
adapted predicate, else true. -/
def andCall (env : FEnv) : List (GoVal × AdaptRes) → GoVal → Except Fault Bool
  | [], _ => .ok true
  | p :: ps, v => do
      let b ← predCall env p v
      if !b then pure false else andCall env ps v

/-- The loop inside the closure Or returns: true on the first truthy
adapted predicate, else false. -/
def orCall (env : FEnv) : List (GoVal × AdaptRes) → GoVal → Except Fault Bool
  | [], _ => .ok false
  | p :: ps, v => do
      let b ← predCall env p v
      if b then pure true else orCall env ps v

/-- And (part_001 lines 143 to 155). -/
def And (env : FEnv) (fns : List GoVal) : Except Fault (GoVal → Except Fault Bool) :=
  Except.map (fun aps => fun val => andCall env aps val) (FilterAll fns)

/-- Or (part_001 lines 159 to 171). -/
def Or (env : FEnv) (fns : List GoVal) : Except Fault (GoVal → Except Fault Bool) :=
  Except.map (fun aps => fun val => orCall env aps val) (FilterAll fns)

/-- Not (part_001 lines 174 to 180): adapts fn via Filter and negates the
result of each call. -/
def Not (env : FEnv) (fn : GoVal) : Except Fault (GoVal → Except Fault Bool) :=
  Except.map (fun r => fun val => Except.map (fun b => !b) (filterCall env fn r val))
    (Filter fn)

/-- EqualTo (part_001 lines 188 to 220), with the returned closure applied
to `arg`. -/
def EqualTo (val arg : GoVal) : Except Fault Bool :=
  match val.typeOf with
  | none => .ok (decide (arg.typeOf = none))
  | some valTyp =>
    match arg.typeOf with
    | none => .ok false
    | some argTyp =>
      if ¬ (argTyp.convertibleTo valTyp) then .ok false
      else if IsNil val then .ok (IsNil arg)
      else if ¬ valTyp.comparableT then .ok (decide (pAddr val = pAddr arg))
      else if IsNil arg then .ok false
      else do
        let c ← reflectConvert arg valTyp
        goEq val c

/-- Map (part_001 lines 281 to 307), adaptation time. -/
def Map (fn : GoVal) : Except Fault AdaptRes :=
  if fn.typeOf = some mapTarget then .ok .original
  else match fn with
    | .funcV [argTyp] [_] _ => .ok (.wrapped argTyp)
    | .funcV _ _ _ => .error (.msg mapErrorMsg)
    | _ => .error (.msg mapErrorMsg)

/-- Call-time semantics of the function Map returns. -/
def mapCall (env : FEnv) (fn : GoVal) (r : AdaptRes) (arg : GoVal) :
    Except Fault GoVal :=
  match r, fn with
  | .original, .funcV _ _ fid => asOne (env fid [arg])
  | .original, _ => .error .nilFuncCall
  | .wrapped argTyp, .funcV _ _ fid => do
      let a ← reflectConvert arg argTyp
      asOne (env fid [a])
  | .wrapped _, _ => .error .illTyped

/-- The result of adapting with MapTo. -/
inductive MapToRes where
  | original
  | wrapped (argTyp resTyp : GoType)
deriving DecidableEq

/-- MapTo (part_001 lines 313 to 374), adaptation time.  Validation order
follows the source: nil probe, probe of interface kind, non-func or nil
fn, arity, then the identity fast path (parameter of interface kind and
result type equal to the probe type), then result convertibility. -/
def MapTo (fn val : GoVal) : Except Fault MapToRes :=
  if IsNil val then .error (.msg nilProbeMsg)
  else match val.typeOf with
    | none => .error (.msg nilProbeMsg)
    | some xtyp =>
      if xtyp.kind = 20 then .error (.msg ifaceProbeMsg)
      else match fn with
        | .funcV [argTyp] [resTyp] _ =>
            if argTyp.kind = 20 ∧ resTyp = xtyp then .ok .original
            else if resTyp.convertibleTo xtyp then .ok (.wrapped argTyp resTyp)
            else .error (.msgTyped mapToErrorMsg xtyp)
        | .funcV _ _ _ => .error (.msgTyped mapToErrorMsg xtyp)
        | _ => .error (.msgTyped mapToErrorMsg xtyp)

/-- The result of adapting with Supplier. -/
inductive SupplierRes where
  | original
  | wrapped
deriving DecidableEq

/-- Supplier (part_001 lines 388 to 412), adaptation time. -/
def Supplier (fn : GoVal) : Except Fault SupplierRes :=
  if fn.typeOf = some supplierTarget then .ok .original
  else match fn with
    | .funcV [] [_] _ => .ok .wrapped
    | .funcV _ _ _ => .error (.msg supplierErrorMsg)
    | _ => .error (.msg supplierErrorMsg)

/-- The result of adapting with SupplierOf. -/
inductive SupplierOfRes where
  | original
  | wrapped (resTyp : GoType)
deriving DecidableEq

/-- SupplierOf (part_001 lines 418 to 473), adaptation time. -/
def SupplierOf (fn val : GoVal) : Except Fault SupplierOfRes :=
  if IsNil val then .error (.msg nilProbeMsg)
  else match val.typeOf with
    | none => .error (.msg nilProbeMsg)
    | some xtyp =>
      if xtyp.kind = 20 then .error (.msg ifaceProbeMsg)
      else match fn with
        | .funcV [] [resTyp] _ =>
            if resTyp = xtyp then .ok .original
            else if resTyp.convertibleTo xtyp then .ok (.wrapped resTyp)
            else .error (.msgTyped supplierOfErrorMsg xtyp)
        | .funcV _ _ _ => .error (.msgTyped supplierOfErrorMsg xtyp)
        | _ => .error (.msgTyped supplierOfErrorMsg xtyp)

/-- Consumer (part_001 lines 478 to 503), adaptation time. -/
def Consumer (fn : GoVal) : Except Fault AdaptRes :=
  if fn.typeOf = some consumerTarget then .ok .original
  else match fn with
    | .funcV [argTyp] [] _ => .ok (.wrapped argTyp)
    | .funcV _ _ _ => .error (.msg consumerErrorMsg)
    | _ => .error (.msg consumerErrorMsg)

/-- Call-time semantics of the function Consumer returns (the callable's
results, if any, are discarded). -/
def consCall (env : FEnv) (fn : GoVal) (r : AdaptRes) (arg : GoVal) :
    Except Fault Unit :=
  match r, fn with
  | .original, .funcV _ _ fid => let _ := env fid [arg]; .ok ()
  | .original, _ => .error .nilFuncCall
  | .wrapped argTyp, .funcV _ _ fid => do
      let a ← reflectConvert arg argTyp
      let _ := env fid [a]
      pure ()
  | .wrapped _, _ => .error .illTyped

end Gofuncs

namespace Gofuncs

/-- The invalid-input condition named by claim C2 for an adapter expecting
`nIn` parameters and `nOut` results (and, for Filter, a bool result): the
input is nil, not a function, a nil function value, or a function with the
wrong parameter count, wrong result count, or a non-bool result. -/
def wrongShape (fn : GoVal) (nIn nOut : Nat) (needBool : Bool) : Bool :=
  match fn with
  | .funcV ps rs _ =>
      ps.length != nIn || rs.length != nOut ||
        (needBool && !(match rs with | [r] => r.kind == 1 | _ => false))
  | _ => true

/-- Projection of `goEq` used to phrase claim C3 (its guards keep the
comparison off the faulting branch). -/
def goEqOk (a b : GoVal) : Bool :=
  match goEq a b with
  | .ok r => r
  | .error _ => false

/-- Claim C3's notion of "converted to val's type, equals val": shallow
`==` equality for comparable types, address comparison for types without a
shallow equality operator. -/
def shallowEqTo (val arg : GoVal) (valTyp : GoType) : Bool :=
  if valTyp.comparableT then goEqOk val ((convertVal arg valTyp).getD arg)
  else decide (pAddr val = pAddr ((convertVal arg valTyp).getD arg))

/-- The predicate described by claim C3, written from the claim's words:
an untyped-nil val matches exactly the untyped-nil arguments; otherwise
the argument's type must convert to val's type; a typed-nil val matches
exactly the nil arguments; otherwise the argument must be non-nil and,
converted to val's type, equal val. -/
def equalToSpec (val arg : GoVal) : Bool :=
  match val.typeOf with
  | none => decide (arg.typeOf = none)
  | some valTyp =>
    match arg.typeOf with
    | none => false
    | some argTyp =>
      if ¬ argTyp.convertibleTo valTyp then false
      else if IsNil val then IsNil arg
      else (!IsNil arg) && shallowEqTo val arg valTyp

end Gofuncs

namespace Gofuncs

/-- C4 (code bug): IndexOf's own documentation promises the element for an
in-bounds index, else the (eagerly converted) default, else the zero
value, and a panic only for a non-sequence input or an inconvertible
default.  The first conjunct shows the divergence: on a 64-bit platform an
index of 2^63 wraps to a negative int in `idx := int(index)`, the length
guard `rv.Len() > idx` passes, and `rv.Index(idx)` panics with an
index-range fault where the claim requires the zero value.  The remaining
conjuncts check the claim's documented behaviours at concrete inputs. -/
theorem c4_indexOf_uint_overflow_bug :
    IndexOf (.sliceV .int 1 [.intV .int 1]) (2 ^ 63) none =
      .error Fault.indexRange ∧
    IndexOf (.sliceV .int 1 [.intV .int 1]) 0 none = .ok (.intV .int 1) ∧
    IndexOf (.sliceV .int 1 [.intV .int 1]) 1 (some (.intV .int 2)) =
      .ok (.intV .int 2) ∧
    IndexOf (.sliceV .int 1 [.intV .int 1]) 1 none = .ok (.intV .int 0) ∧
    IndexOf (.intV .int 5) 0 none = .error (.msg indexOfErrorMsg) ∧
    IndexOf (.sliceV .int 1 [.intV .int 1]) 0 (some (.stringV "x")) =
      .error (.badConvert .string .int) := by
  decide

/-- C6: MapTo and SupplierOf validate the probe before ever inspecting the
callable: a nil probe (untyped or typed nil) raises the nil-probe fault
and a probe whose reflected kind is Interface raises the interface-probe
fault, for every callable argument whatsoever. -/
theorem c6_probe_validated_first (fn val : GoVal) :
    (IsNil val = true →
      MapTo fn val = .error (.msg nilProbeMsg) ∧
      SupplierOf fn val = .error (.msg nilProbeMsg)) ∧
    (∀ xtyp, val.typeOf = some xtyp → xtyp.kind = 20 → IsNil val = false →
      MapTo fn val = .error (.msg ifaceProbeMsg) ∧
      SupplierOf fn val = .error (.msg ifaceProbeMsg)) := by
  constructor
  · intro h
    constructor <;> simp [MapTo, SupplierOf, h]
  · intro xtyp hty hk hnil
    constructor <;> simp [MapTo, SupplierOf, hnil, hty, hk]

/-- C6 witness: the theorem applied to concrete probes: the untyped nil
probe and a (hypothetical) interface-kind probe, with a callable of the
exact target type in both cases. -/
theorem c6_probe_validated_first_witness :
    MapTo (.funcV [anyTyp] [.int] 1) .untypedNil = .error (.msg nilProbeMsg) ∧
    SupplierOf (.funcV [] [.int] 1) .untypedNil = .error (.msg nilProbeMsg) ∧
    MapTo (.funcV [anyTyp] [.int] 1) (.refV (.iface "") 2) =
      .error (.msg ifaceProbeMsg) ∧
    SupplierOf (.funcV [] [.int] 1) (.refV (.iface "") 2) =
      .error (.msg ifaceProbeMsg) := by
  refine ⟨?_, ?_, ?_, ?_⟩
  · exact ((c6_probe_validated_first (.funcV [anyTyp] [.int] 1) .untypedNil).1
      (by decide)).1
  · exact ((c6_probe_validated_first (.funcV [] [.int] 1) .untypedNil).1
      (by decide)).2
  · exact ((c6_probe_validated_first (.funcV [anyTyp] [.int] 1)
      (.refV (.iface "") 2)).2 (.iface "") (by decide) (by decide) (by decide)).1
  · exact ((c6_probe_validated_first (.funcV [] [.int] 1)
      (.refV (.iface "") 2)).2 (.iface "") (by decide) (by decide) (by decide)).2

theorem WF_kind_ne_iface (val : GoVal) (t : GoType) (hWF : val.WF = true)
    (ht : val.typeOf = some t) : t.kind ≠ 20 := by
  cases val with
  | untypedNil => simp [GoVal.typeOf] at ht
  | boolV b =>
      simp [GoVal.typeOf] at ht; subst ht; decide
  | intV u n =>
      simp [GoVal.typeOf] at ht; subst ht
      simp [GoVal.WF] at hWF
      cases u <;> simp_all [GoType.isNumeric, GoType.kind]
  | stringV s =>
      simp [GoVal.typeOf] at ht; subst ht; decide
  | nilRef u =>
      simp [GoVal.typeOf] at ht; subst ht
      simp [GoVal.WF] at hWF
      exact hWF.2
  | refV u a =>
      simp [GoVal.typeOf] at ht; subst ht
      simp [GoVal.WF] at hWF
      rcases hWF with h | h <;> omega
  | sliceV e a es =>
      simp [GoVal.typeOf] at ht; subst ht; simp [GoType.kind]
  | mapV k v a es =>
      simp [GoVal.typeOf] at ht; subst ht; simp [GoType.kind]
  | funcV ps rs fid =>
      simp [GoVal.typeOf] at ht; subst ht; simp [GoType.kind]

/-- C8: for every probe value that can actually arrive through Go's
`interface\x7b\x7d` parameter (its dynamic type is never an interface
type, captured by `GoVal.WF`), the interface-probe validation branch of
MapTo and SupplierOf is unreachable: the only probe-validation fault they
can raise is the nil-probe fault. -/
theorem c8_iface_probe_unreachable (fn val : GoVal) (hWF : val.WF = true) :
    MapTo fn val ≠ .error (.msg ifaceProbeMsg) ∧
    SupplierOf fn val ≠ .error (.msg ifaceProbeMsg) := by
  by_cases hnil : IsNil val = true
  · constructor <;> simp [MapTo, SupplierOf, hnil] <;> decide
  · rw [Bool.not_eq_true] at hnil
    cases hty : val.typeOf with
    | none =>
        constructor <;> simp [MapTo, SupplierOf, hnil, hty] <;> decide
    | some xtyp =>
        have hk := WF_kind_ne_iface val xtyp hWF hty
        constructor <;>
          (simp only [MapTo, SupplierOf, hnil, hty, Bool.false_eq_true,
            if_false]
           rw [if_neg hk]
           split <;> try split_ifs) <;> simp

/-- C8 witness: the theorem at a concrete probe (an int probe through an
exact-type callable and through garbage input). -/
theorem c8_iface_probe_unreachable_witness :
    (GoVal.intV .int 0).WF = true ∧
    MapTo (.intV .int 7) (.intV .int 0) ≠ .error (.msg ifaceProbeMsg) ∧
    SupplierOf (.intV .int 7) (.intV .int 0) ≠ .error (.msg ifaceProbeMsg) := by
  refine ⟨by decide, ?_, ?_⟩
  · exact (c8_iface_probe_unreachable (.intV .int 7) (.intV .int 0) (by decide)).1
  · exact (c8_iface_probe_unreachable (.intV .int 7) (.intV .int 0) (by decide)).2

end Gofuncs

namespace Gofuncs

theorem Filter_wrapped_is_funcV (fn : GoVal) (t : GoType)
    (h : Filter fn = .ok (.wrapped t)) : ∃ ps rs fid, fn = .funcV ps rs fid := by
  cases fn <;> revert h <;> simp [Filter] <;> split_ifs <;> simp

theorem Map_wrapped_is_funcV (fn : GoVal) (t : GoType)
    (h : Map fn = .ok (.wrapped t)) : ∃ ps rs fid, fn = .funcV ps rs fid := by
  cases fn <;> revert h <;> simp [Map] <;> split_ifs <;> simp

theorem Consumer_wrapped_is_funcV (fn : GoVal) (t : GoType)
    (h : Consumer fn = .ok (.wrapped t)) : ∃ ps rs fid, fn = .funcV ps rs fid := by
  cases fn <;> revert h <;> simp [Consumer] <;> split_ifs <;> simp

/-- C9: when Filter, Map or Consumer adapt a function through the
reflective route (result `wrapped`), calling the returned adapter with an
untyped nil argument always faults at call time —
`reflect.ValueOf(nil).Convert` panics on the zero Value — whatever the
declared parameter type, nilable or not. -/
theorem c9_wrapped_call_nil_arg_faults (env : FEnv) (fn : GoVal) (t : GoType) :
    (Filter fn = .ok (.wrapped t) →
      filterCall env fn (.wrapped t) .untypedNil = .error .convertZero) ∧
    (Map fn = .ok (.wrapped t) →
      mapCall env fn (.wrapped t) .untypedNil = .error .convertZero) ∧
    (Consumer fn = .ok (.wrapped t) →
      consCall env fn (.wrapped t) .untypedNil = .error .convertZero) := by
  refine ⟨?_, ?_, ?_⟩ <;> intro h
  · obtain ⟨ps, rs, fid, rfl⟩ := Filter_wrapped_is_funcV fn t h
    rfl
  · obtain ⟨ps, rs, fid, rfl⟩ := Map_wrapped_is_funcV fn t h
    rfl
  · obtain ⟨ps, rs, fid, rfl⟩ := Consumer_wrapped_is_funcV fn t h
    rfl

def envTrue : FEnv := fun _ _ => [.boolV true]

/-- C9 witness: concrete wrapped adapters over functions whose declared
parameter type is the nilable type `[]int`, called on an untyped nil
argument. -/
theorem c9_wrapped_call_nil_arg_faults_witness :
    Filter (.funcV [.slice .int] [.bool] 0) = .ok (.wrapped (.slice .int)) ∧
    Map (.funcV [.slice .int] [.int] 0) = .ok (.wrapped (.slice .int)) ∧
    Consumer (.funcV [.slice .int] [] 0) = .ok (.wrapped (.slice .int)) ∧
    filterCall envTrue (.funcV [.slice .int] [.bool] 0) (.wrapped (.slice .int))
      .untypedNil = .error .convertZero ∧
    mapCall envTrue (.funcV [.slice .int] [.int] 0) (.wrapped (.slice .int))
      .untypedNil = .error .convertZero ∧
    consCall envTrue (.funcV [.slice .int] [] 0) (.wrapped (.slice .int))
      .untypedNil = .error .convertZero := by
  refine ⟨by decide, by decide, by decide, ?_, ?_, ?_⟩
  · exact (c9_wrapped_call_nil_arg_faults envTrue
      (.funcV [.slice .int] [.bool] 0) (.slice .int)).1 (by decide)
  · exact (c9_wrapped_call_nil_arg_faults envTrue
      (.funcV [.slice .int] [.int] 0) (.slice .int)).2.1 (by decide)
  · exact (c9_wrapped_call_nil_arg_faults envTrue
      (.funcV [.slice .int] [] 0) (.slice .int)).2.2 (by decide)

/-- C2: off the fast path, every adapter input that is nil, not a
function, a nil function value, or a function with the wrong parameter
count, wrong result count, or (for Filter) a non-bool result makes the
adapter fault at adaptation time with exactly its own fixed message — for
MapTo and SupplierOf, given a validly typed probe, the fixed message
formatted with the probe's type — and never any other fault. -/
theorem c2_shape_mismatch_fixed_fault (fn val : GoVal) :
    (fn.typeOf ≠ some filterTarget → wrongShape fn 1 1 true = true →
        Filter fn = .error (.msg filterErrorMsg)) ∧
    (fn.typeOf ≠ some mapTarget → wrongShape fn 1 1 false = true →
        Map fn = .error (.msg mapErrorMsg)) ∧
    (fn.typeOf ≠ some supplierTarget → wrongShape fn 0 1 false = true →
        Supplier fn = .error (.msg supplierErrorMsg)) ∧
    (fn.typeOf ≠ some consumerTarget → wrongShape fn 1 0 false = true →
        Consumer fn = .error (.msg consumerErrorMsg)) ∧
    (∀ xtyp, IsNil val = false → val.typeOf = some xtyp → xtyp.kind ≠ 20 →
      wrongShape fn 1 1 false = true →
        MapTo fn val = .error (.msgTyped mapToErrorMsg xtyp)) ∧
    (∀ xtyp, IsNil val = false → val.typeOf = some xtyp → xtyp.kind ≠ 20 →
      wrongShape fn 0 1 false = true →
        SupplierOf fn val = .error (.msgTyped supplierOfErrorMsg xtyp)) := by
  refine ⟨?_, ?_, ?_, ?_, ?_, ?_⟩
  · intro hne hbad
    unfold Filter
    rw [if_neg hne]
    cases fn <;> try rfl
    rename_i ps rs fid
    rcases ps with _ | ⟨a, _ | ⟨a2, ps2⟩⟩ <;>
      rcases rs with _ | ⟨r, _ | ⟨r2, rs2⟩⟩ <;> simp_all [wrongShape]
  · intro hne hbad
    unfold Map
    rw [if_neg hne]
    cases fn <;> try rfl
    rename_i ps rs fid
    rcases ps with _ | ⟨a, _ | ⟨a2, ps2⟩⟩ <;>
      rcases rs with _ | ⟨r, _ | ⟨r2, rs2⟩⟩ <;> simp_all [wrongShape]
  · intro hne hbad
    unfold Supplier
    rw [if_neg hne]
    cases fn <;> try rfl
    rename_i ps rs fid
    rcases ps with _ | ⟨a, _ | ⟨a2, ps2⟩⟩ <;>
      rcases rs with _ | ⟨r, _ | ⟨r2, rs2⟩⟩ <;> simp_all [wrongShape]
  · intro hne hbad
    unfold Consumer
    rw [if_neg hne]
    cases fn <;> try rfl
    rename_i ps rs fid
    rcases ps with _ | ⟨a, _ | ⟨a2, ps2⟩⟩ <;>
      rcases rs with _ | ⟨r, _ | ⟨r2, rs2⟩⟩ <;> simp_all [wrongShape]
  · intro xtyp hnil hty hk hbad
    simp only [MapTo, hnil, hty, Bool.false_eq_true, if_false]
    rw [if_neg hk]
    cases fn <;> try rfl
    rename_i ps rs fid
    rcases ps with _ | ⟨a, _ | ⟨a2, ps2⟩⟩ <;>
      rcases rs with _ | ⟨r, _ | ⟨r2, rs2⟩⟩ <;> simp_all [wrongShape]
  · intro xtyp hnil hty hk hbad
    simp only [SupplierOf, hnil, hty, Bool.false_eq_true, if_false]
    rw [if_neg hk]
    cases fn <;> try rfl
    rename_i ps rs fid
    rcases ps with _ | ⟨a, _ | ⟨a2, ps2⟩⟩ <;>
      rcases rs with _ | ⟨r, _ | ⟨r2, rs2⟩⟩ <;> simp_all [wrongShape]

/-- C2 witness: the theorem applied to a non-function input (an int) for
all six adapters, plus a wrong-result-kind function for Filter. -/
theorem c2_shape_mismatch_fixed_fault_witness :
    Filter (.intV .int 3) = .error (.msg filterErrorMsg) ∧
    Filter (.funcV [.int] [.int] 0) = .error (.msg filterErrorMsg) ∧
    Map (.intV .int 3) = .error (.msg mapErrorMsg) ∧
    Supplier (.intV .int 3) = .error (.msg supplierErrorMsg) ∧
    Consumer (.intV .int 3) = .error (.msg consumerErrorMsg) ∧
    MapTo (.intV .int 3) (.intV .int 0) =
      .error (.msgTyped mapToErrorMsg .int) ∧
    SupplierOf (.intV .int 3) (.intV .int 0) =
      .error (.msgTyped supplierOfErrorMsg .int) := by
  refine ⟨?_, ?_, ?_, ?_, ?_, ?_, ?_⟩
  · exact (c2_shape_mismatch_fixed_fault (.intV .int 3) (.intV .int 0)).1
      (by decide) (by decide)
  · exact (c2_shape_mismatch_fixed_fault (.funcV [.int] [.int] 0)
      (.intV .int 0)).1 (by decide) (by decide)
  · exact (c2_shape_mismatch_fixed_fault (.intV .int 3) (.intV .int 0)).2.1
      (by decide) (by decide)
  · exact (c2_shape_mismatch_fixed_fault (.intV .int 3) (.intV .int 0)).2.2.1
      (by decide) (by decide)
  · exact (c2_shape_mismatch_fixed_fault (.intV .int 3) (.intV .int 0)).2.2.2.1
      (by decide) (by decide)
  · exact (c2_shape_mismatch_fixed_fault (.intV .int 3) (.intV .int 0)).2.2.2.2.1
      .int (by decide) (by decide) (by decide) (by decide)
  · exact (c2_shape_mismatch_fixed_fault (.intV .int 3) (.intV .int 0)).2.2.2.2.2
      .int (by decide) (by decide) (by decide) (by decide)

end Gofuncs

namespace Gofuncs

theorem goBind_ok {α β : Type} (x : α) (f : α → Except Fault β) :
    (Except.ok x >>= f) = f x := rfl

theorem goBind_error {α β : Type} (e : Fault) (f : α → Except Fault β) :
    ((Except.error e : Except Fault α) >>= f) = Except.error e := rfl

theorem goMap_ok {α β : Type} (f : α → β) (x : α) :
    Except.map f (Except.ok x : Except Fault α) = Except.ok (f x) := rfl

theorem goMap_error {α β : Type} (f : α → β) (e : Fault) :
    Except.map f (Except.error e : Except Fault α) = Except.error e := rfl

theorem goEq_false_of_type_mismatch (a b : GoVal) (t : GoType)
    (ha : a.typeOf = some t) (hb : b.typeOf ≠ some t) : goEq a b = .ok false := by
  cases a <;> cases b <;> simp_all [goEq, GoVal.typeOf] <;>
    (intro h2; exact absurd h2.symm hb)

theorem findKey_none_of (key : GoVal) :
    ∀ entries : List (GoVal × GoVal),
    (∀ p ∈ entries, goEq p.1 key = .ok false) → findKey entries key = .ok none := by
  intro entries h
  induction entries with
  | nil => rfl
  | cons p ps ih =>
      obtain ⟨k, v⟩ := p
      have hk := h (k, v) (List.mem_cons_self _ _)
      have hrest := ih (fun q hq => h q (List.mem_cons_of_mem _ hq))
      simp only [findKey, hk, hrest]
      rfl

/-- C10: ValueOfKey matches the lookup key against stored keys with Go
interface equality and no type conversion: whenever the key's dynamic
type differs from the dynamic type of every stored key, no entry matches,
so the converted default (when supplied) or the value type's zero value
is returned. -/
theorem c10_valueOfKey_no_key_conversion
    (kt vt : GoType) (a : Nat) (entries : List (GoVal × GoVal)) (key : GoVal)
    (hkeys : ∀ p ∈ entries, (p.1).typeOf = some kt)
    (hkey : key.typeOf ≠ some kt) :
    ValueOfKey (.mapV kt vt a entries) key none = .ok (zeroVal vt) ∧
    (∀ d c, reflectConvert d vt = .ok c →
      ValueOfKey (.mapV kt vt a entries) key (some d) = .ok c) := by
  have hfind : findKey entries key = .ok none :=
    findKey_none_of key entries
      (fun p hp => goEq_false_of_type_mismatch p.1 key kt (hkeys p hp) hkey)
  constructor
  · simp only [ValueOfKey, GoVal.typeOf, mapEntriesOf, hfind, goBind_ok]
  · intro d c hd
    simp only [ValueOfKey, GoVal.typeOf, mapEntriesOf, hfind, goBind_ok, hd,
      goMap_ok]

/-- C10 witness: a map with int keys looked up with an int8 key misses
every entry; without a default the int zero value is returned, with an
int8 default the converted default is returned. -/
theorem c10_valueOfKey_no_key_conversion_witness :
    ValueOfKey (.mapV .int .int 1 [(.intV .int 1, .intV .int 10)])
      (.intV .int8 1) none = .ok (.intV .int 0) ∧
    ValueOfKey (.mapV .int .int 1 [(.intV .int 1, .intV .int 10)])
      (.intV .int8 1) (some (.intV .int8 7)) = .ok (.intV .int 7) := by
  have h := c10_valueOfKey_no_key_conversion .int .int 1
    [(.intV .int 1, .intV .int 10)] (.intV .int8 1) (by decide) (by decide)
  exact ⟨h.1, h.2 (.intV .int8 7) (.intV .int 7) (by decide)⟩

end Gofuncs

namespace Gofuncs

theorem andCall_eq_all (env : FEnv) (v : GoVal) :
    ∀ aps : List (GoVal × AdaptRes),
    (∀ p ∈ aps, ∃ b, predCall env p v = .ok b) →
    andCall env aps v = .ok (decide (∀ p ∈ aps, predCall env p v = .ok true)) := by
  intro aps h
  induction aps with
  | nil => simp [andCall]
  | cons p ps ih =>
      obtain ⟨b, hb⟩ := h p (List.mem_cons_self _ _)
      have hrest := ih (fun q hq => h q (List.mem_cons_of_mem _ hq))
      cases b with
      | false =>
          have hne : ¬ (∀ q ∈ p :: ps, predCall env q v = .ok true) := by
            intro hall
            have h2 := hall p (List.mem_cons_self _ _)
            rw [hb] at h2
            cases h2
          simp only [andCall, hb, goBind_ok]
          rw [decide_eq_false hne]
          rfl
      | true =>
          simp only [andCall, hb, goBind_ok, Bool.not_true, Bool.false_eq_true,
            if_false, hrest]
          simp [List.forall_mem_cons, hb]

theorem orCall_eq_any (env : FEnv) (v : GoVal) :
    ∀ aps : List (GoVal × AdaptRes),
    (∀ p ∈ aps, ∃ b, predCall env p v = .ok b) →
    orCall env aps v = .ok (decide (∃ p ∈ aps, predCall env p v = .ok true)) := by
  intro aps h
  induction aps with
  | nil => simp [orCall]
  | cons p ps ih =>
      obtain ⟨b, hb⟩ := h p (List.mem_cons_self _ _)
      have hrest := ih (fun q hq => h q (List.mem_cons_of_mem _ hq))
      cases b with
      | true =>
          have hyes : ∃ q ∈ p :: ps, predCall env q v = .ok true :=
            ⟨p, List.mem_cons_self _ _, hb⟩
          simp only [orCall, hb, goBind_ok]
          rw [decide_eq_true hyes]
          rfl
      | false =>
          have hno : predCall env p v ≠ .ok true := by
            rw [hb]; intro h2; cases h2
          simp only [orCall, hb, goBind_ok, Bool.false_eq_true, if_false, hrest]
          simp [List.exists_mem_cons_iff, hno]

theorem andCall_append_false (env : FEnv) (v : GoVal) :
    ∀ aps qs, andCall env aps v = .ok false →
      andCall env (aps ++ qs) v = .ok false := by
  intro aps qs h
  induction aps with
  | nil => exact absurd h (by simp [andCall])
  | cons p ps ih =>
      rw [List.cons_append]
      simp only [andCall] at h ⊢
      cases hb : predCall env p v with
      | error e =>
          (try rw [hb] at h)
          simp [goBind_error] at h
      | ok b =>
          (try rw [hb] at h)
          simp only [goBind_ok] at h ⊢
          cases b with
          | false => rfl
          | true => exact ih h

theorem orCall_append_true (env : FEnv) (v : GoVal) :
    ∀ aps qs, orCall env aps v = .ok true →
      orCall env (aps ++ qs) v = .ok true := by
  intro aps qs h
  induction aps with
  | nil => exact absurd h (by simp [orCall])
  | cons p ps ih =>
      rw [List.cons_append]
      simp only [orCall] at h ⊢
      cases hb : predCall env p v with
      | error e =>
          (try rw [hb] at h)
          simp [goBind_error] at h
      | ok b =>
          (try rw [hb] at h)
          simp only [goBind_ok] at h ⊢
          cases b with
          | true => rfl
          | false => exact ih h

/-- C5: with every adapted predicate evaluating cleanly at `x`, the And
closure computes the conjunction of all the predicates at `x` and the Or
closure the disjunction; both are vacuously true, respectively false, over
zero predicates; and evaluation short-circuits: whatever stands after the
first decisive predicate — even predicates that would fault — cannot
change the result. -/
theorem c5_and_or_semantics (env : FEnv) (fns : List GoVal)
    (aps : List (GoVal × AdaptRes)) (v : GoVal)
    (hAll : FilterAll fns = .ok aps) :
    (∀ g, And env fns = .ok g → g v = andCall env aps v) ∧
    (∀ g, Or env fns = .ok g → g v = orCall env aps v) ∧
    ((∀ p ∈ aps, ∃ b, predCall env p v = .ok b) →
      andCall env aps v = .ok (decide (∀ p ∈ aps, predCall env p v = .ok true)) ∧
      orCall env aps v = .ok (decide (∃ p ∈ aps, predCall env p v = .ok true))) ∧
    (fns = [] → andCall env aps v = .ok true ∧ orCall env aps v = .ok false) ∧
    (∀ qs, andCall env aps v = .ok false →
      andCall env (aps ++ qs) v = .ok false) ∧
    (∀ qs, orCall env aps v = .ok true →
      orCall env (aps ++ qs) v = .ok true) := by
  refine ⟨?_, ?_, ?_, ?_, ?_, ?_⟩
  · intro g hg
    simp only [And, hAll, goMap_ok] at hg
    rw [← Except.ok.inj hg]
  · intro g hg
    simp only [Or, hAll, goMap_ok] at hg
    rw [← Except.ok.inj hg]
  · intro h
    exact ⟨andCall_eq_all env v aps h, orCall_eq_any env v aps h⟩
  · intro hnil
    subst hnil
    have : aps = [] := by
      have h2 : (Except.ok [] : Except Fault (List (GoVal × AdaptRes))) = .ok aps := hAll
      exact (Except.ok.inj h2).symm
    subst this
    exact ⟨rfl, rfl⟩
  · exact fun qs => andCall_append_false env v aps qs
  · exact fun qs => orCall_append_true env v aps qs

def w5f1 : GoVal := .funcV [anyTyp] [.bool] 0

def w5f2 : GoVal := .funcV [.int] [.bool] 1

def w5env : FEnv := fun fid args =>
  if fid = 0 then [.boolV true]
  else [.boolV (match args with | [.intV _ n] => decide (n < 3) | _ => false)]

/-- C5 witness: two concrete predicates (one on the fast path, one
wrapped), evaluated at 5: the first is constantly true, the second tests
"less than 3", so And yields false and Or yields true. -/
theorem c5_and_or_semantics_witness :
    FilterAll [w5f1, w5f2] =
      .ok [(w5f1, .original), (w5f2, .wrapped .int)] ∧
    andCall w5env [(w5f1, .original), (w5f2, .wrapped .int)] (.intV .int 5) =
      .ok false ∧
    orCall w5env [(w5f1, .original), (w5f2, .wrapped .int)] (.intV .int 5) =
      .ok true := by
  have h := c5_and_or_semantics w5env [w5f1, w5f2]
    [(w5f1, .original), (w5f2, .wrapped .int)] (.intV .int 5) rfl
  have hexists : ∀ p ∈ [(w5f1, AdaptRes.original), (w5f2, AdaptRes.wrapped .int)],
      ∃ b, predCall w5env p (.intV .int 5) = .ok b := by
    intro p hp
    rcases List.mem_cons.mp hp with rfl | hp2
    · exact ⟨true, rfl⟩
    rcases List.mem_cons.mp hp2 with rfl | hp3
    · exact ⟨false, rfl⟩
    · cases hp3
  obtain ⟨ha, ho⟩ := h.2.2.1 hexists
  refine ⟨rfl, ?_, ?_⟩
  · rw [ha]; decide
  · rw [ho]; decide

/-- C7: Not adapts its argument through Filter and pointwise negates the
adapted predicate: whenever the adapted call returns a boolean, the Not
closure returns its negation (and it propagates the same fault
otherwise). -/
theorem c7_not_negates_filter (env : FEnv) (fn : GoVal) :
    (∀ r, Filter fn = .ok r →
      ∃ g, Not env fn = .ok g ∧
        ∀ x, g x = Except.map (fun b => !b) (filterCall env fn r x)) ∧
    (∀ g r x b, Not env fn = .ok g → Filter fn = .ok r →
      filterCall env fn r x = .ok b → g x = .ok (!b)) := by
  constructor
  · intro r hr
    refine ⟨_, ?_, fun x => rfl⟩
    simp only [Not, hr, goMap_ok]
  · intro g r x b hg hr hc
    simp only [Not, hr, goMap_ok] at hg
    rw [← Except.ok.inj hg]
    simp only [hc, goMap_ok]

def w7fn : GoVal := .funcV [anyTyp] [.bool] 0

/-- C7 witness: a concrete constantly-true predicate on the fast path; its
Not adapter returns false where the Filter adapter returns true. -/
theorem c7_not_negates_filter_witness :
    Filter w7fn = .ok .original ∧
    filterCall w5env w7fn .original (.intV .int 3) = .ok true ∧
    ∃ g, Not w5env w7fn = .ok g ∧ g (.intV .int 3) = .ok false := by
  refine ⟨by decide, rfl, ?_⟩
  obtain ⟨g, hg, hcall⟩ :=
    (c7_not_negates_filter w5env w7fn).1 .original (by decide)
  exact ⟨g, hg, by rw [hcall]; rfl⟩

end Gofuncs

namespace Gofuncs

/-- A function whose parameter type is a non-empty interface type (think
`func(error) int`): its dynamic type is not the MapTo target signature
`func(interface\x7b\x7d) int`, yet MapTo's fast path accepts it. -/
def c1fn : GoVal := .funcV [.iface "error"] [.int] 0

/-- C1 counterexample: the claim says an adapter returns its input
unchanged ONLY when the input's type exactly equals the target uniform
signature; but MapTo's fast path tests `argTyp.Kind() == reflect.Interface`,
so a `func(error) int` with an int probe is returned unchanged although
its type is not `func(interface\x7b\x7d) int`. -/
theorem c1_counterexample :
    MapTo c1fn (.intV .int 0) = .ok .original ∧
    c1fn.typeOf ≠ some (.func [anyTyp] [.int]) := by
  constructor
  · decide
  · decide

end Gofuncs

namespace Gofuncs

theorem filter_original_iff (fn : GoVal) :
    Filter fn = .ok .original ↔ fn.typeOf = some filterTarget := by
  constructor
  · intro h
    by_contra hne
    unfold Filter at h
    rw [if_neg hne] at h
    cases fn <;> try exact absurd h (by simp)
    rename_i ps rs fid
    rcases ps with _ | ⟨a, _ | ⟨a2, ps2⟩⟩ <;>
      rcases rs with _ | ⟨r, _ | ⟨r2, rs2⟩⟩ <;> revert h <;> simp <;>
      split_ifs <;> simp
  · intro h
    unfold Filter
    rw [if_pos h]

theorem mapTo_original_iff (fn val : GoVal) (xtyp : GoType)
    (hty : val.typeOf = some xtyp) :
    MapTo fn val = .ok .original ↔
      (IsNil val = false ∧ xtyp.kind ≠ 20 ∧
        ∃ argTyp fid, fn = .funcV [argTyp] [xtyp] fid ∧ argTyp.kind = 20) := by
  by_cases hnil : IsNil val = true
  · unfold MapTo
    rw [if_pos hnil]
    simp [hnil]
  · rw [Bool.not_eq_true] at hnil
    unfold MapTo
    simp only [hnil, hty, Bool.false_eq_true, if_false]
    by_cases hk : xtyp.kind = 20
    · rw [if_pos hk]
      simp [hk]
    · rw [if_neg hk]
      cases fn <;> try (simp [hnil, hk])
      rename_i ps rs fid
      rcases ps with _ | ⟨a, _ | ⟨a2, ps2⟩⟩ <;>
        rcases rs with _ | ⟨r, _ | ⟨r2, rs2⟩⟩ <;> try (simp [hnil, hk])
      split_ifs with hcond <;>
        (constructor
         · intro h2
           by_cases h20 : a.kind = 20
           · by_cases hr : r = xtyp
             · exact ⟨a, ⟨rfl, hr⟩, h20⟩
             · exact absurd (h2 (fun _ => hr)) (by simp)
           · exact absurd (h2 (fun hh => absurd hh h20)) (by simp)
         · rintro ⟨argTyp, ⟨rfl, hr⟩, h20⟩
           intro hkr
           exact absurd hr (hkr h20))

end Gofuncs

namespace Gofuncs

theorem supplierOf_original_iff (fn val : GoVal) (xtyp : GoType)
    (hty : val.typeOf = some xtyp) :
    SupplierOf fn val = .ok .original ↔
      (IsNil val = false ∧ xtyp.kind ≠ 20 ∧
        ∃ fid, fn = .funcV [] [xtyp] fid) := by
  by_cases hnil : IsNil val = true
  · unfold SupplierOf
    rw [if_pos hnil]
    simp [hnil]
  · rw [Bool.not_eq_true] at hnil
    unfold SupplierOf
    simp only [hnil, hty, Bool.false_eq_true, if_false]
    by_cases hk : xtyp.kind = 20
    · rw [if_pos hk]
      simp [hk]
    · rw [if_neg hk]
      cases fn <;> try (simp [hnil, hk])
      rename_i ps rs fid
      rcases ps with _ | ⟨a, _ | ⟨a2, ps2⟩⟩ <;>
        rcases rs with _ | ⟨r, _ | ⟨r2, rs2⟩⟩ <;> try (simp [hnil, hk])
      split_ifs with hcond <;>
        (constructor
         · intro h2
           by_cases hr : r = xtyp
           · exact hr
           · exact absurd (h2 hr) (by simp)
         · intro hr hne
           exact absurd hr hne)

theorem map_original_iff (fn : GoVal) :
    Map fn = .ok .original ↔ fn.typeOf = some mapTarget := by
  constructor
  · intro h
    by_contra hne
    unfold Map at h
    rw [if_neg hne] at h
    cases fn <;> try exact absurd h (by simp)
    rename_i ps rs fid
    rcases ps with _ | ⟨a, _ | ⟨a2, ps2⟩⟩ <;>
      rcases rs with _ | ⟨r, _ | ⟨r2, rs2⟩⟩ <;> revert h <;> simp <;>
      split_ifs <;> simp
  · intro h
    unfold Map
    rw [if_pos h]

theorem supplier_original_iff (fn : GoVal) :
    Supplier fn = .ok .original ↔ fn.typeOf = some supplierTarget := by
  constructor
  · intro h
    by_contra hne
    unfold Supplier at h
    rw [if_neg hne] at h
    cases fn <;> try exact absurd h (by simp)
    rename_i ps rs fid
    rcases ps with _ | ⟨a, _ | ⟨a2, ps2⟩⟩ <;>
      rcases rs with _ | ⟨r, _ | ⟨r2, rs2⟩⟩ <;> revert h <;> simp <;>
      split_ifs <;> simp
  · intro h
    unfold Supplier
    rw [if_pos h]

theorem consumer_original_iff (fn : GoVal) :
    Consumer fn = .ok .original ↔ fn.typeOf = some consumerTarget := by
  constructor
  · intro h
    by_contra hne
    unfold Consumer at h
    rw [if_neg hne] at h
    cases fn <;> try exact absurd h (by simp)
    rename_i ps rs fid
    rcases ps with _ | ⟨a, _ | ⟨a2, ps2⟩⟩ <;>
      rcases rs with _ | ⟨r, _ | ⟨r2, rs2⟩⟩ <;> revert h <;> simp <;>
      split_ifs <;> simp
  · intro h
    unfold Consumer
    rw [if_pos h]

end Gofuncs

namespace Gofuncs

/-- C1 (amended): Filter, Map, Supplier and Consumer return the input
itself exactly when its dynamic type equals the adapter's target uniform
signature (a typed-nil function of that exact type included).  MapTo
returns the input unchanged exactly when the probe is non-nil of a
non-interface-kind type X and the input is a unary single-result function
whose parameter type has interface kind — any interface type, not only
the empty interface, which is where the original claim fails — and whose
result type is exactly X; SupplierOf, exactly when the probe is such an X
and the input is a nullary single-result function returning exactly X. -/
theorem c1_fast_path_identity_amended (fn val : GoVal) :
    (Filter fn = .ok .original ↔ fn.typeOf = some filterTarget) ∧
    (Map fn = .ok .original ↔ fn.typeOf = some mapTarget) ∧
    (Supplier fn = .ok .original ↔ fn.typeOf = some supplierTarget) ∧
    (Consumer fn = .ok .original ↔ fn.typeOf = some consumerTarget) ∧
    (∀ xtyp, val.typeOf = some xtyp →
      (MapTo fn val = .ok .original ↔
        (IsNil val = false ∧ xtyp.kind ≠ 20 ∧
          ∃ argTyp fid, fn = .funcV [argTyp] [xtyp] fid ∧ argTyp.kind = 20))) ∧
    (∀ xtyp, val.typeOf = some xtyp →
      (SupplierOf fn val = .ok .original ↔
        (IsNil val = false ∧ xtyp.kind ≠ 20 ∧
          ∃ fid, fn = .funcV [] [xtyp] fid))) := by
  exact ⟨filter_original_iff fn, map_original_iff fn, supplier_original_iff fn,
    consumer_original_iff fn,
    fun xtyp hty => mapTo_original_iff fn val xtyp hty,
    fun xtyp hty => supplierOf_original_iff fn val xtyp hty⟩

/-- C1 witness: concrete exact-signature callables are returned unchanged
by every adapter. -/
theorem c1_fast_path_identity_amended_witness :
    Filter (.funcV [anyTyp] [.bool] 3) = .ok .original ∧
    Map (.funcV [anyTyp] [anyTyp] 3) = .ok .original ∧
    Supplier (.funcV [] [anyTyp] 3) = .ok .original ∧
    Consumer (.funcV [anyTyp] [] 3) = .ok .original ∧
    MapTo (.funcV [anyTyp] [.int] 3) (.intV .int 0) = .ok .original ∧
    SupplierOf (.funcV [] [.int] 3) (.intV .int 0) = .ok .original := by
  refine ⟨?_, ?_, ?_, ?_, ?_, ?_⟩
  · exact (c1_fast_path_identity_amended (.funcV [anyTyp] [.bool] 3)
      .untypedNil).1.mpr (by decide)
  · exact (c1_fast_path_identity_amended (.funcV [anyTyp] [anyTyp] 3)
      .untypedNil).2.1.mpr (by decide)
  · exact (c1_fast_path_identity_amended (.funcV [] [anyTyp] 3)
      .untypedNil).2.2.1.mpr (by decide)
  · exact (c1_fast_path_identity_amended (.funcV [anyTyp] [] 3)
      .untypedNil).2.2.2.1.mpr (by decide)
  · exact ((c1_fast_path_identity_amended (.funcV [anyTyp] [.int] 3)
      (.intV .int 0)).2.2.2.2.1 .int (by decide)).mpr
      ⟨by decide, by decide, anyTyp, 3, rfl, by decide⟩
  · exact ((c1_fast_path_identity_amended (.funcV [] [.int] 3)
      (.intV .int 0)).2.2.2.2.2 .int (by decide)).mpr
      ⟨by decide, by decide, 3, rfl⟩

end Gofuncs

namespace Gofuncs

theorem convertible_to_noncomparable_eq (s t : GoType) (hc : t.comparableT = false)
    (h : s.convertibleTo t = true) : s = t := by
  cases t <;> simp_all [GoType.comparableT, GoType.convertibleTo, GoType.isNumeric]

theorem convertVal_self (arg : GoVal) (t : GoType) (hat : arg.typeOf = some t)
    (ht : t ≠ .iface "") : convertVal arg t = some arg := by
  unfold convertVal
  rw [hat]
  simp [GoType.convertibleTo]

theorem isNumeric_cases (t : GoType) (h : t.isNumeric = true) :
    t = .int ∨ t = .int8 := by
  cases t <;> simp_all [GoType.isNumeric]

theorem typed_numeric_WF_is_intV (arg : GoVal) (s : GoType) (hWF : arg.WF = true)
    (hat : arg.typeOf = some s) (hnum : s.isNumeric = true) :
    ∃ n, arg = .intV s n := by
  rcases isNumeric_cases s hnum with rfl | rfl <;>
    cases arg <;> simp_all [GoVal.WF, GoVal.typeOf, GoType.kind, GoType.isNumeric]

theorem convertVal_isSome (arg : GoVal) (s t : GoType) (hWF : arg.WF = true)
    (hat : arg.typeOf = some s) (hconv : s.convertibleTo t = true) :
    ∃ c, convertVal arg t = some c := by
  by_cases hst : s = t
  · subst hst
    by_cases hi : s = .iface ""
    · subst hi
      exact ⟨arg, by unfold convertVal; rw [hat]; simp [GoType.convertibleTo]⟩
    · exact ⟨arg, convertVal_self arg s hat hi⟩
  · by_cases hi : t = .iface ""
    · subst hi
      exact ⟨arg, by unfold convertVal; rw [hat]; simp [GoType.convertibleTo, hst]⟩
    · have hnum : s.isNumeric = true := by
        simp [GoType.convertibleTo, hst, hi] at hconv
        rcases hconv with ⟨h1, -⟩ | ⟨h1, -⟩ <;> exact h1
      obtain ⟨n, rfl⟩ := typed_numeric_WF_is_intV arg s hWF hat hnum
      have ht : t.isNumeric = true ∨ t = .string := by
        simp [GoType.convertibleTo, hst, hi] at hconv
        rcases hconv with ⟨-, h2⟩ | ⟨-, h2⟩
        · exact .inl h2
        · exact .inr h2
      rcases ht with htn | rfl
      · rcases isNumeric_cases t htn with rfl | rfl
        · exact ⟨.intV .int (wrapInt 64 n),
            by unfold convertVal; simp [GoVal.typeOf, hconv, hst]⟩
        · exact ⟨.intV .int8 (wrapInt 8 n),
            by unfold convertVal; simp [GoVal.typeOf, hconv, hst]⟩
      · exact ⟨.stringV (String.mk [Char.ofNat n.toNat]),
          by unfold convertVal; simp [GoVal.typeOf, hconv, hst]⟩

theorem convertVal_typeOf (arg c : GoVal) (s t : GoType)
    (hat : arg.typeOf = some s) (ht : t ≠ .iface "")
    (h : convertVal arg t = some c) : c.typeOf = some t := by
  unfold convertVal at h
  rw [hat] at h
  simp only [] at h
  by_cases hconv : s.convertibleTo t = true
  · rw [if_neg (not_not_intro hconv)] at h
    by_cases hst : s = t
    · rw [if_pos hst] at h
      cases h
      rw [hat, hst]
    · rw [if_neg hst, if_neg ht] at h
      split at h <;> cases h <;> rfl
  · rw [if_pos hconv] at h
    cases h

theorem convertVal_WF (arg c : GoVal) (t : GoType) (hWF : arg.WF = true)
    (h : convertVal arg t = some c) : c.WF = true := by
  unfold convertVal at h
  cases hat : arg.typeOf <;> rw [hat] at h
  · cases h
  · rename_i s
    simp only [] at h
    by_cases hconv : s.convertibleTo t = true
    · rw [if_neg (not_not_intro hconv)] at h
      by_cases hst : s = t
      · rw [if_pos hst] at h
        cases h
        exact hWF
      · rw [if_neg hst] at h
        by_cases hi : t = .iface ""
        · rw [if_pos hi] at h
          cases h
          exact hWF
        · rw [if_neg hi] at h
          split at h <;> cases h <;> rfl
    · rw [if_pos hconv] at h
      cases h

end Gofuncs

namespace Gofuncs

def exceptIsOk (e : Except Fault Bool) : Bool :=
  match e with
  | .ok _ => true
  | .error _ => false

theorem exceptIsOk_exists (e : Except Fault Bool) (h : exceptIsOk e = true) :
    ∃ r, e = .ok r := by
  cases e <;> simp_all [exceptIsOk]

theorem goEq_ok_of_comparable (a b : GoVal) (t : GoType)
    (ha : a.typeOf = some t) (hb : b.typeOf = some t) (hc : t.comparableT = true)
    (hWFa : a.WF = true) (hWFb : b.WF = true) :
    ∃ r, goEq a b = .ok r := by
  apply exceptIsOk_exists
  cases a <;> cases b <;> simp [GoVal.typeOf] at ha hb <;>
    (try subst ha) <;> (try subst hb) <;>
    (try simp_all [goEq, GoVal.typeOf, exceptIsOk, GoVal.WF, GoType.comparableT,
      GoType.isNumeric, GoType.kind]) <;>
    (rename GoType => u
     cases u <;>
       simp_all [goEq, GoVal.typeOf, exceptIsOk, GoVal.WF, GoType.comparableT,
         GoType.isNumeric, GoType.kind])

theorem pAddr_ne_nilAddr (val : GoVal) (hWF : val.WF = true)
    (hnil : IsNil val = false) (t : GoType) (hty : val.typeOf = some t) :
    pAddr val ≠ .nilAddr := by
  cases val <;> simp_all [pAddr, GoVal.WF, GoVal.typeOf, IsNil, IsNilable]

theorem isNil_typed_is_nilRef (arg : GoVal) (t : GoType)
    (hat : arg.typeOf = some t) (h : IsNil arg = true) :
    ∃ u, arg = .nilRef u := by
  cases arg <;> simp_all [IsNil, IsNilable, GoVal.typeOf]

/-- C3: EqualTo implements exactly the four-case predicate of the claim
(captured verbatim by `equalToSpec`): an untyped-nil val matches exactly
untyped-nil arguments; otherwise an inconvertible (or untyped-nil)
argument yields false; a typed-nil val matches exactly nil arguments; and
otherwise the argument must be non-nil and, converted to val's type,
shallowly equal val (Go `==` for comparable types, `%p`-address identity
for types without `==`).  Stated for values well-formed as Go
`interface\x7b\x7d` contents. -/
theorem c3_equalTo_matches_claim (val arg : GoVal) (hv : val.WF = true)
    (ha : arg.WF = true) : EqualTo val arg = .ok (equalToSpec val arg) := by
  unfold EqualTo equalToSpec
  cases hvt : val.typeOf with
  | none => rfl
  | some valTyp =>
    have hvtne : valTyp ≠ .iface "" := by
      intro hh
      exact WF_kind_ne_iface val valTyp hv hvt (by rw [hh]; rfl)
    cases hat : arg.typeOf with
    | none => rfl
    | some argTyp =>
      simp only []
      by_cases hconv : argTyp.convertibleTo valTyp = true
      case neg => simp [hconv]
      case pos =>
        rw [if_neg (not_not_intro hconv), if_neg (not_not_intro hconv)]
        by_cases hniv : IsNil val = true
        · rw [if_pos hniv, if_pos hniv]
        · rw [if_neg hniv, if_neg hniv]
          by_cases hcomp : valTyp.comparableT = true
          case neg =>
            have hcompF : valTyp.comparableT = false := by
              revert hcomp; cases valTyp.comparableT <;> simp
            rw [if_pos hcomp]
            have heqT : argTyp = valTyp :=
              convertible_to_noncomparable_eq argTyp valTyp hcompF hconv
            subst heqT
            unfold shallowEqTo
            rw [if_neg (by rw [hcompF]; simp : ¬ argTyp.comparableT = true)]
            rw [convertVal_self arg argTyp hat hvtne]
            simp only [Option.getD_some]
            by_cases hnia : IsNil arg = true
            · obtain ⟨u, rfl⟩ := isNil_typed_is_nilRef arg argTyp hat hnia
              rw [Bool.not_eq_true] at hniv
              have hne := pAddr_ne_nilAddr val hv hniv argTyp hvt
              simp only [show pAddr (GoVal.nilRef u) = PRepr.nilAddr from rfl]
              simp [hnia, decide_eq_false hne]
            · have hniaF : IsNil arg = false := by
                revert hnia; cases IsNil arg <;> simp
              simp [hniaF]
          case pos =>
            rw [if_neg (not_not_intro hcomp)]
            unfold shallowEqTo
            rw [if_pos hcomp]
            by_cases hnia : IsNil arg = true
            · rw [if_pos hnia]
              simp [hnia]
            · rw [if_neg hnia]
              obtain ⟨c, hc⟩ := convertVal_isSome arg argTyp valTyp ha hat hconv
              have hrc : reflectConvert arg valTyp = .ok c := by
                unfold reflectConvert
                rw [hat, hc]
              have hcty : c.typeOf = some valTyp :=
                convertVal_typeOf arg c argTyp valTyp hat hvtne hc
              have hcWF := convertVal_WF arg c valTyp ha hc
              obtain ⟨r, hr⟩ := goEq_ok_of_comparable val c valTyp hvt hcty
                hcomp hv hcWF
              rw [hc]
              simp only [Option.getD_some]
              unfold goEqOk
              rw [hrc]
              simp only [goBind_ok, hr]
              have hniaF : IsNil arg = false := by
                revert hnia; cases IsNil arg <;> simp
              simp [hniaF]

/-- C3 witness: the refinement theorem applied at concrete values:
`EqualTo 1 1` is true and `EqualTo 1 "a"` is false, each matching the
claim's predicate. -/
theorem c3_equalTo_matches_claim_witness :
    (GoVal.intV .int 1).WF = true ∧
    EqualTo (.intV .int 1) (.intV .int 1) =
      .ok (equalToSpec (.intV .int 1) (.intV .int 1)) ∧
    equalToSpec (.intV .int 1) (.intV .int 1) = true ∧
    EqualTo (.intV .int 1) (.stringV "a") =
      .ok (equalToSpec (.intV .int 1) (.stringV "a")) ∧
    equalToSpec (.intV .int 1) (.stringV "a") = false := by
  refine ⟨by decide, c3_equalTo_matches_claim _ _ (by decide) (by decide),
    by decide, c3_equalTo_matches_claim _ _ (by decide) (by decide), by decide⟩

end Gofuncs
